import Mathlib

/-!
Verification development for the dcbc solver-utility core
(`solvers/util/problem.h`, `solvers/util/solver.cc`).

The C++ data model and operations are shallowly embedded as executable
Lean definitions: machine ints become `Int`/`Nat` (the values involved
never overflow in the modelled scenarios), raw C strings become
`List Char`, heap arrays become functions `Nat → ℚ` plus explicit
size/capacity counters, and exceptions become `Except String`.
-/

namespace DCBC

/-! ### Solution (problem.h) -/

/-- Embeds `Solution::Status` from problem.h: the enumerators in their
declared order, so `UNKNOWN = 0`, `SOLVED = 1`, ..., `FAILURE = 6`. -/
inductive Status where
  | UNKNOWN
  | SOLVED
  | SOLVED_MAYBE
  | INFEASIBLE
  | UNBOUNDED
  | LIMIT
  | FAILURE
  deriving DecidableEq, Repr

/-- Numeric value of each `Status` enumerator, as assigned by C++. -/
def Status.ordinal : Status → Nat
  | .UNKNOWN => 0
  | .SOLVED => 1
  | .SOLVED_MAYBE => 2
  | .INFEASIBLE => 3
  | .UNBOUNDED => 4
  | .LIMIT => 5
  | .FAILURE => 6

/-- Inverse of Status.ordinal, embedding the C++
`static_cast<Status>(n)` for the in-range values produced by
`Solution::status` (the cast is only ever applied to 1..6). -/
def Status.ofIdx : Nat → Status
  | 0 => .UNKNOWN
  | 1 => .SOLVED
  | 2 => .SOLVED_MAYBE
  | 3 => .INFEASIBLE
  | 4 => .UNBOUNDED
  | 5 => .LIMIT
  | 6 => .FAILURE
  | _ + 7 => .UNKNOWN

/-- The part of `Solution` that `status()` reads: the stored solve code. -/
structure Solution where
  solve_code : Int
  deriving DecidableEq, Repr

/-- Embeds `Solution::status` (problem.h lines 72-75):
`solve_code_ < 0 || solve_code_ >= 600 ? UNKNOWN
 : static_cast<Status>(solve_code_ / 100 + 1)`.
In the cast branch the code is nonnegative, so C++ `int` division is
`Nat` division on `toNat`. -/
def Solution.status (s : Solution) : Status :=
  if s.solve_code < 0 ∨ 600 ≤ s.solve_code then .UNKNOWN
  else Status.ofIdx (s.solve_code.toNat / 100 + 1)

/-! ### Problem capacity growth (problem.h) -/

/-- Embeds `Problem::IncreaseCapacity(int size, int &capacity)`
(problem.h lines 123-128).  Throwing the modification error
becomes `Except.error`; on success the new capacity value (assigned to
the by-reference parameter) is returned.  Sizes and capacities are
counts, never negative, hence `Nat`. -/
def IncreaseCapacity (size capacity : Nat) : Except String Nat :=
  if capacity = 0 ∧ size ≠ 0 then .error "Problem can\x27t be modified"
  else
    let c := max capacity size
    .ok (if c ≠ 0 then 2 * c else 8)

/-- Embeds `Problem::Grow(T *&array, int &size, int &capacity)`
(problem.h lines 130-136): a fresh array of the new capacity receives a
copy of the first `size` elements of the old array (`std::copy(array,
array + size, new_array)`); slots past `size` are freshly allocated and
unspecified, modelled as 0. -/
def Grow (array : Nat → ℚ) (size : Nat) : Nat → ℚ :=
  fun i => if i < size then array i else 0

/-! ### ProblemChanges (problem.h) -/

/-- The part of `ProblemChanges` that `AddVar` touches: the base
problem's variable count (`problem_->num_vars()`) and the delta bound
vectors `var_lb_`, `var_ub_`. -/
structure ProblemChanges where
  baseNumVars : Nat
  var_lb : List ℚ
  var_ub : List ℚ
  deriving DecidableEq, Repr

/-- Embeds the `ProblemChanges(const Problem &p)` constructor: empty
delta vectors against a base problem with `n` variables. -/
def ProblemChanges.make (n : Nat) : ProblemChanges :=
  { baseNumVars := n, var_lb := [], var_ub := [] }

/-- Embeds `ProblemChanges::AddVar` (problem.h lines 325-329):
push `lb` and `ub`, then return
`problem_->num_vars() + var_lb_.size() - 1` (size taken after the
push). -/
def ProblemChanges.AddVar (pc : ProblemChanges) (lb ub : ℚ) :
    Nat × ProblemChanges :=
  let pc' := { pc with
    var_lb := pc.var_lb ++ [lb],
    var_ub := pc.var_ub ++ [ub] }
  (pc.baseNumVars + pc'.var_lb.length - 1, pc')

/-- Runs a sequence of `ProblemChanges.AddVar` calls, collecting the
returned indices in order. -/
def ProblemChanges.addVarSeq :
    ProblemChanges → List (ℚ × ℚ) → List Nat × ProblemChanges
  | pc, [] => ([], pc)
  | pc, (lb, ub) :: rest =>
    let r := pc.AddVar lb ub
    let r' := r.2.addVarSeq rest
    (r.1 :: r'.1, r'.2)

/-! ### Character helpers (solver.cc)

Raw C strings are embedded as `List Char`; a `const char *` cursor into
a string becomes the suffix list it points at. -/

/-- Embeds C `isspace` in the C locale: space and the control
characters 9..13 (tab, newline, vertical tab, form feed, carriage
return). -/
def isSpaceC (c : Char) : Bool :=
  c.toNat == 32 || (Nat.ble 9 c.toNat && Nat.ble c.toNat 13)

/-- Embeds C `isdigit`: the characters with codes 48..57. -/
def isDigitC (c : Char) : Bool :=
  Nat.ble 48 c.toNat && Nat.ble c.toNat 57

/-- Embeds C `tolower` in the C locale: shift A-Z down by 32, leave
everything else unchanged. -/
def tolowerC (c : Char) : Char :=
  if 65 ≤ c.toNat ∧ c.toNat ≤ 90 then Char.ofNat (c.toNat + 32) else c

/-- A character the option-name loop of `ParseOptionString` consumes:
`while (*s && !std::isspace(*s) && *s != '=') ++s;` (solver.cc
lines 285-286). -/
def isNameChar (c : Char) : Bool :=
  !isSpaceC c && c != '='

/-- Embeds `SkipSpaces` (solver.cc lines 41-45). -/
def skipSpacesC (s : List Char) : List Char :=
  s.dropWhile isSpaceC

/-- Embeds `SkipNonSpaces` (solver.cc lines 47-51). -/
def skipNonSpacesC (s : List Char) : List Char :=
  s.dropWhile (fun c => !isSpaceC c)

/-- Value of a list of decimal digit characters. -/
def digitsVal (ds : List Char) : Nat :=
  ds.foldl (fun a c => 10 * a + (c.toNat - 48)) 0

/-- Embeds C `strtol(s, &end, 10)`: skip leading whitespace, consume an
optional sign and a maximal run of decimal digits; if no digits follow,
no conversion is performed, 0 is returned and `end` stays at the start
of the string.  Returns the value together with the final cursor. -/
def strtol10 (s : List Char) : Int × List Char :=
  let s1 := skipSpacesC s
  let core : List Char → Bool → Int × List Char := fun t neg =>
    let ds := t.takeWhile isDigitC
    if ds.isEmpty then (0, s)
    else ((if neg then -(digitsVal ds : Int) else (digitsVal ds : Int)),
      t.dropWhile isDigitC)
  if s1.head? = some '-' then core s1.tail true
  else if s1.head? = some '+' then core s1.tail false
  else core s1 false

/-- Embeds `OptionHelper<int>::Parse` (solver.cc lines 106-111):
`value = strtol(s, &end, 10); s = end; return value;`.  The function
contains no throw: it is total and never raises an option error. -/
def OptionHelperIntParse (s : List Char) : Int × List Char :=
  strtol10 s

/-- Decides whether a string has no leading integer for `strtol10`:
after optional whitespace and an optional sign there is no decimal
digit. -/
def noLeadingInt (s : List Char) : Bool :=
  let s1 := skipSpacesC s
  let t := if s1.head? = some '-' ∨ s1.head? = some '+' then s1.tail else s1
  (t.takeWhile isDigitC).isEmpty

/-! ### Solver options (solver.cc) -/

/-- The option kinds exercised by this development: a keyword option
(like `version`, solver.cc lines 212-224: `Parse` sets a flag and
consumes nothing, `Format` renders the flag bit) and an int-typed
option (like `wantsol`, solver.cc lines 227-239: `Parse` reads a value
via `OptionHelper<int>::Parse` and stores it). -/
inductive OptVal where
  | kw (flag : Bool)
  | intv (v : Int)
  deriving DecidableEq, Repr

/-- Embeds `SolverOption::is_keyword()`. -/
def OptVal.is_keyword : OptVal → Bool
  | .kw _ => true
  | .intv _ => false

/-- Embeds the option `Format` operation: `VersionOption::Format`
prints the flag bit as 0/1 (solver.cc lines 218-220); for int options
the value is printed in decimal (the `TypedSolverOption<int>` glue
lives in the solver.h header outside this excerpt; modelled from the
spec: Format renders the current value). -/
def OptVal.format : OptVal → String
  | .kw flag => if flag then "1" else "0"
  | .intv v => toString v

/-- Embeds the option `Parse` operation: `VersionOption::Parse` sets
the flag and consumes nothing (solver.cc lines 221-223); for int
options the value comes from `OptionHelper<int>::Parse` (the
`TypedSolverOption<int>` glue lives in solver.h outside this excerpt;
modelled from the spec: Parse consumes a value token and mutates owning
state).  Neither kind throws. -/
def OptVal.Parse : OptVal → List Char → OptVal × List Char
  | .kw _, s => (.kw true, s)
  | .intv _, s =>
    let r := OptionHelperIntParse s
    (.intv r.1, r.2)

/-- The state `ParseOptionString` threads: the option registry
`options_` with current values, the diagnostics reported via
`ReportError`, and the lines written to standard output. -/
structure ParseState where
  opts : List (String × OptVal)
  errors : List String
  output : List String
  deriving DecidableEq, Repr

/-- Modelled from the spec: `BasicSolver::ReportError` is declared in
the solver.h header outside this excerpt; per spec section 7 it prints
the diagnostic line and accumulates the process-level has-errors flag,
modelled by appending to the `errors` list (the flag is
`ParseState.hasErrors`). -/
def reportError (st : ParseState) (msg : String) : ParseState :=
  { st with errors := st.errors ++ [msg] }

/-- The accumulated `has_errors_` flag: set exactly when some
diagnostic has been reported. -/
def ParseState.hasErrors (st : ParseState) : Bool :=
  !st.errors.isEmpty

/-- Replaces the value bound to `name` in the registry, keeping the
binding order. -/
def setOpt : List (String × OptVal) → String → OptVal → List (String × OptVal)
  | [], _, _ => []
  | (k, v) :: rest, name, nv =>
    if k = name then (k, nv) :: rest else (k, v) :: setOpt rest name nv

/-- Result of one iteration of the `ParseOptionString` loop: either the
input was exhausted, or the loop continues with an updated state, skip
flag, and cursor. -/
inductive StepResult where
  | done (st : ParseState)
  | cont (st : ParseState) (skip : Bool) (rest : List Char)
  deriving DecidableEq, Repr

/-- Embeds one iteration of the loop of `BasicSolver::ParseOptionString`
(solver.cc lines 277-347): skip whitespace and stop at the end of
input; otherwise read the name (stopping at whitespace or an equals
sign, lowercasing), optionally consume an equals sign, look the name up
in the registry, and handle the unknown-name / query / keyword-with-
argument / parse cases exactly as the source does.  `echo` is the
negation of the `NO_OPTION_ECHO` bit of `flags`. -/
def parseStep (echo : Bool) (st : ParseState) (skip : Bool)
    (s0 : List Char) : StepResult :=
  let s := skipSpacesC s0
  if s.isEmpty then .done st
  else
    let nameChars := s.takeWhile isNameChar
    let s1 := s.dropWhile isNameChar
    let name := String.mk (nameChars.map tolowerC)
    let s2 := skipSpacesC s1
    let eqres : Bool × List Char :=
      if s2.head? = some '=' then (true, skipSpacesC s2.tail) else (false, s2)
    let equalSign := eqres.1
    let s3 := eqres.2
    match st.opts.lookup name with
    | none =>
      let st' := if skip then st
        else reportError st ("Unknown option \"" ++ name ++ "\"")
      if equalSign then .cont st' skip (skipNonSpacesC s3)
      else .cont st' true s3
    | some opt =>
      let isQuery : Bool :=
        if s3.head? = some '?' then
          match s3.tail.head? with
          | none => true
          | some c => isSpaceC c
        else false
      if isQuery then
        let st' := if echo then
            { st with output := st.output ++ [name ++ "=" ++ opt.format] }
          else st
        .cont st' false s3.tail
      else if opt.is_keyword && equalSign then
        let st' := reportError st
          ("Option \"" ++ name ++ "\" doesn\x27t accept argument")
        .cont st' false (skipNonSpacesC s3)
      else
        let pr := opt.Parse s3
        let consumedLen := s.length - pr.2.length
        let echoLine := String.mk (s.take consumedLen)
        let st' := { st with opts := setOpt st.opts name pr.1 }
        let st'' := if echo then
            { st' with output := st'.output ++ [echoLine] }
          else st'
        .cont st'' false pr.2

/-- Fueled driver of the `ParseOptionString` loop; every iteration
strictly consumes input, so any fuel of at least the input length plus
one reaches the end. -/
def parseOptLoop (echo : Bool) :
    Nat → ParseState → Bool → List Char → ParseState
  | 0, st, _, _ => st
  | fuel + 1, st, skip, s =>
    match parseStep echo st skip s with
    | .done st' => st'
    | .cont st' skip' rest => parseOptLoop echo fuel st' skip' rest

/-- Embeds `BasicSolver::ParseOptionString` on a whole string: the loop
starts with `skip = false` (solver.cc line 278). -/
def ParseOptionString (echo : Bool) (st : ParseState) (s : String) :
    ParseState :=
  parseOptLoop echo (s.length + 1) st false s.data

/-! ### ParseOptions and Run (solver.cc) -/

/-- Embeds `BasicSolver::ParseOptions` (solver.cc lines 349-363): reset
`has_errors_`, parse the environment option string (if the
`<name>_options` variable is set) and then each remaining command
argument, and return `!has_errors_`.  The registry starts from the
given bindings; the echo flag is shared by all strings. -/
def ParseOptions (echo : Bool) (opts : List (String × OptVal))
    (envOpts : Option String) (argv : List String) : ParseState × Bool :=
  let st0 : ParseState := { opts := opts, errors := [], output := [] }
  let st1 := match envOpts with
    | some e => ParseOptionString echo st0 e
    | none => st0
  let stF := argv.foldl (fun st a => ParseOptionString echo st a) st1
  (stF, !stF.hasErrors)

/-- Outcome of `BasicSolver::Run`: the returned status code, whether
the external `Solve` entry point was invoked, and the status the solve
produced when it ran (the solve itself is an external collaborator). -/
structure RunResult where
  returnCode : Int
  solveInvoked : Bool
  solveStatus : Option Status
  deriving DecidableEq, Repr

/-- Embeds `BasicSolver::Run` (solver.cc lines 365-386) over
`ProcessArgs` (solver.cc lines 260-268).  `stubFound` is the result of
the external `getstub_ASL` call and `solveStatus` the outcome of the
external `Solve`; everything else follows the source: no stub means
usage text and return 1 without solving, accumulated parse errors mean
return 1 without solving, and otherwise `Solve` runs and `Run` returns
0 whatever the solve produced. -/
def Run (stubFound echo : Bool) (opts : List (String × OptVal))
    (envOpts : Option String) (argv : List String)
    (solveStatus : Status) : RunResult :=
  if !stubFound then ⟨1, false, none⟩
  else
    let pr := ParseOptions echo opts envOpts argv
    if !pr.2 then ⟨1, false, none⟩
    else ⟨0, true, some solveStatus⟩

/-! ### SignalHandler (solver.cc) -/

/-- The observable actions of one run of `SignalHandler::HandleSigInt`
(solver.cc lines 150-169): whether the pre-rendered message was written
with the reentrant-safe `write` primitive, whether the process was
terminated via `_exit`, the value of the stop flag afterwards, whether
`Interruptible::Interrupt` was called, and whether the handler was
re-installed with `std::signal`. -/
structure SigEffect where
  wroteMessage : Bool
  exited : Bool
  stopAfter : Bool
  interruptCalled : Bool
  handlerReinstalled : Bool
  deriving DecidableEq, Repr

/-- Embeds `SignalHandler::HandleSigInt`: the handler state is the
single `sig_atomic_t` stop flag (`false` = ARMED, `true` = STOPPING).
The write loop always runs first; then a set stop flag means `_exit(1)`,
and an unset one means setting the flag, interrupting the registered
`Interruptible` (when one was installed), and re-installing the
handler. -/
def HandleSigInt (stop hasInterruptible : Bool) : SigEffect :=
  if stop then
    { wroteMessage := true, exited := true, stopAfter := stop,
      interruptCalled := false, handlerReinstalled := false }
  else
    { wroteMessage := true, exited := false, stopAfter := true,
      interruptCalled := hasInterruptible, handlerReinstalled := true }

/-! ### Problem variable storage (problem.h plus spec section 4.1) -/

/-- The part of `Problem` that `AddVar` touches: the variable count
`asl_->i.n_var_`, the capacity `var_capacity_`, and the bound arrays
`LUv_` and `Uvx_` (modelled as total functions; only indices below
`numVars` are meaningful). -/
structure ProblemModel where
  numVars : Nat
  var_capacity : Nat
  LUv : Nat → ℚ
  Uvx : Nat → ℚ

/-- A default-constructed `Problem`: no variables, zero capacity. -/
def ProblemModel.empty : ProblemModel :=
  { numVars := 0, var_capacity := 0, LUv := fun _ => 0, Uvx := fun _ => 0 }

/-- Modelled from the spec: the body of `Problem::AddVar` is outside
this excerpt (problem.h line 268 only declares it); per spec sections 3
and 4.1 an append triggers the growth path exactly when the requested
size exceeds the current capacity, the growth path being the
`IncreaseCapacity` / `Grow` pair embedded above from problem.h; the new
bounds are then stored at the index equal to the old variable count and
the count incremented.  The variable-type tag is not modelled (the
claims read only the bounds). -/
def ProblemModel.AddVar (p : ProblemModel) (lb ub : ℚ) :
    Except String ProblemModel :=
  if p.var_capacity ≤ p.numVars then
    match IncreaseCapacity p.numVars p.var_capacity with
    | .error e => .error e
    | .ok cap =>
      let lu := Grow p.LUv p.numVars
      let uv := Grow p.Uvx p.numVars
      .ok { numVars := p.numVars + 1, var_capacity := cap,
            LUv := fun i => if i = p.numVars then lb else lu i,
            Uvx := fun i => if i = p.numVars then ub else uv i }
  else
    .ok { numVars := p.numVars + 1, var_capacity := p.var_capacity,
          LUv := fun i => if i = p.numVars then lb else p.LUv i,
          Uvx := fun i => if i = p.numVars then ub else p.Uvx i }

/-- Runs a sequence of `ProblemModel.AddVar` calls, collecting the
index each call appended at (the entity's stable index). -/
def ProblemModel.addVarSeq :
    ProblemModel → List (ℚ × ℚ) → Except String (List Nat × ProblemModel)
  | p, [] => .ok ([], p)
  | p, (lb, ub) :: rest =>
    match p.AddVar lb ub with
    | .error e => .error e
    | .ok q =>
      match q.addVarSeq rest with
      | .error e => .error e
      | .ok (is, r) => .ok (p.numVars :: is, r)

/-! ### List and character lemmas -/

theorem takeWhile_append_all {p : Char → Bool} :
    ∀ {w t : List Char}, w.all p = true →
      (w ++ t).takeWhile p = w ++ t.takeWhile p := by
  intro w
  induction w with
  | nil => simp
  | cons c w ih =>
    intro t h
    simp only [List.all_cons, Bool.and_eq_true] at h
    simp [List.takeWhile_cons, h.1, ih h.2]

theorem dropWhile_append_all {p : Char → Bool} :
    ∀ {w t : List Char}, w.all p = true →
      (w ++ t).dropWhile p = t.dropWhile p := by
  intro w
  induction w with
  | nil => simp
  | cons c w ih =>
    intro t h
    simp only [List.all_cons, Bool.and_eq_true] at h
    simp [List.dropWhile_cons, h.1, ih h.2]

/-! ### General lemmas about one parser step -/

/-- An unknown option name followed by an equals sign: the diagnostic
is reported unless skip mode is on, the next non-whitespace token is
discarded, and the skip flag is left unchanged. -/
theorem parseStep_unknown_eq (echo : Bool) (st : ParseState) (skip : Bool)
    (w tok rest : List Char)
    (hw : w ≠ []) (hwn : w.all isNameChar = true)
    (hlk : st.opts.lookup (String.mk (w.map tolowerC)) = none)
    (htok : tok ≠ []) (htokn : tok.all (fun c => !isSpaceC c) = true)
    (hrest : rest = [] ∨ ∃ c t, rest = c :: t ∧ isSpaceC c = true) :
    parseStep echo st skip (w ++ ('=' :: (tok ++ rest))) =
      .cont (if skip then st
        else reportError st
          ("Unknown option \"" ++ String.mk (w.map tolowerC) ++ "\""))
        skip rest := by
  obtain ⟨cw, w', rfl⟩ : ∃ c w', w = c :: w' := by
    cases w with
    | nil => exact absurd rfl hw
    | cons c w' => exact ⟨c, w', rfl⟩
  obtain ⟨ct, tok', rfl⟩ : ∃ c t', tok = c :: t' := by
    cases tok with
    | nil => exact absurd rfl htok
    | cons c t' => exact ⟨c, t', rfl⟩
  have hcw : isNameChar cw = true := by
    simp only [List.all_cons, Bool.and_eq_true] at hwn
    exact hwn.1
  have hspcw : isSpaceC cw = false := by
    unfold isNameChar at hcw
    simp only [Bool.and_eq_true, Bool.not_eq_eq_eq_not, Bool.not_true] at hcw
    exact hcw.1
  have hspct : isSpaceC ct = false := by
    simp only [List.all_cons, Bool.and_eq_true] at htokn
    simpa using htokn.1
  have e0 : skipSpacesC ((cw :: w') ++ ('=' :: ((ct :: tok') ++ rest))) =
      (cw :: w') ++ ('=' :: ((ct :: tok') ++ rest)) := by
    simp [skipSpacesC, List.dropWhile_cons, hspcw]
  have e1 : ((cw :: w') ++ ('=' :: ((ct :: tok') ++ rest))).takeWhile
      isNameChar = cw :: w' := by
    rw [takeWhile_append_all hwn]
    simp [List.takeWhile_cons, (by decide : isNameChar '=' = false)]
  have e2 : ((cw :: w') ++ ('=' :: ((ct :: tok') ++ rest))).dropWhile
      isNameChar = '=' :: ((ct :: tok') ++ rest) := by
    rw [dropWhile_append_all hwn]
    simp [List.dropWhile_cons, (by decide : isNameChar '=' = false)]
  have e3 : skipSpacesC ('=' :: ((ct :: tok') ++ rest)) =
      '=' :: ((ct :: tok') ++ rest) := by
    simp [skipSpacesC, List.dropWhile_cons, (by decide : isSpaceC '=' = false)]
  have e4 : skipSpacesC ((ct :: tok') ++ rest) = (ct :: tok') ++ rest := by
    simp [skipSpacesC, List.dropWhile_cons, hspct]
  have e5 : skipNonSpacesC ((ct :: tok') ++ rest) = rest := by
    unfold skipNonSpacesC
    rw [dropWhile_append_all htokn]
    rcases hrest with rfl | ⟨c, t, rfl, hc⟩
    · simp
    · simp [List.dropWhile_cons, hc]
  simp only [parseStep, e0, e1, e2, e3, e4, e5, hlk, List.isEmpty_cons,
    List.head?_cons, List.tail_cons, Bool.false_eq_true, if_false,
    eq_self_iff_true, if_true]
  simp only [List.cons_append, List.isEmpty_cons, Bool.false_eq_true,
    if_false]

/-- An unknown option name with no equals sign: the diagnostic is
reported unless skip mode is on, nothing further is consumed, and skip
mode is entered. -/
theorem parseStep_unknown_bare (echo : Bool) (st : ParseState) (skip : Bool)
    (w rest : List Char)
    (hw : w ≠ []) (hwn : w.all isNameChar = true)
    (hlk : st.opts.lookup (String.mk (w.map tolowerC)) = none)
    (hrest : rest = [] ∨ ∃ c t, rest = c :: t ∧ isSpaceC c = true)
    (hne : (skipSpacesC rest).head? ≠ some '=') :
    parseStep echo st skip (w ++ rest) =
      .cont (if skip then st
        else reportError st
          ("Unknown option \"" ++ String.mk (w.map tolowerC) ++ "\""))
        true (skipSpacesC rest) := by
  obtain ⟨cw, w', rfl⟩ : ∃ c w', w = c :: w' := by
    cases w with
    | nil => exact absurd rfl hw
    | cons c w' => exact ⟨c, w', rfl⟩
  have hcw : isNameChar cw = true := by
    simp only [List.all_cons, Bool.and_eq_true] at hwn
    exact hwn.1
  have hspcw : isSpaceC cw = false := by
    unfold isNameChar at hcw
    simp only [Bool.and_eq_true, Bool.not_eq_eq_eq_not, Bool.not_true] at hcw
    exact hcw.1
  have hrt : rest.takeWhile isNameChar = [] := by
    rcases hrest with rfl | ⟨c, t, rfl, hc⟩
    · rfl
    · simp [List.takeWhile_cons, isNameChar, hc]
  have hrd : rest.dropWhile isNameChar = rest := by
    rcases hrest with rfl | ⟨c, t, rfl, hc⟩
    · rfl
    · simp [List.dropWhile_cons, isNameChar, hc]
  have e0 : skipSpacesC ((cw :: w') ++ rest) = (cw :: w') ++ rest := by
    simp [skipSpacesC, List.dropWhile_cons, hspcw]
  have e1 : ((cw :: w') ++ rest).takeWhile isNameChar = cw :: w' := by
    rw [takeWhile_append_all hwn, hrt, List.append_nil]
  have e2 : ((cw :: w') ++ rest).dropWhile isNameChar = rest := by
    rw [dropWhile_append_all hwn, hrd]
  simp only [parseStep, e0, e1, e2, hlk, hne, List.isEmpty_cons,
    Bool.false_eq_true, if_false]
  simp only [List.cons_append, List.isEmpty_cons, Bool.false_eq_true,
    if_false]

/-- A recognized option name always exits skip mode: whatever branch
the body takes, the continuation carries `skip = false`. -/
theorem parseStep_known_cont (echo : Bool) (st : ParseState) (skip : Bool)
    (s0 : List Char)
    (hs : (skipSpacesC s0).isEmpty = false)
    (hlk : (st.opts.lookup (String.mk
      (((skipSpacesC s0).takeWhile isNameChar).map tolowerC))).isSome = true) :
    ∃ st' rest, parseStep echo st skip s0 = .cont st' false rest := by
  obtain ⟨opt, hopt⟩ := Option.isSome_iff_exists.mp hlk
  simp only [parseStep, hs, hopt, Bool.false_eq_true, if_false]
  repeat' split
  all_goals exact ⟨_, _, rfl⟩

/-- A recognized option with a question mark at the value position
(separated from the name by whitespace, followed by whitespace or end
of input): exactly the question mark is consumed, `Parse` is not
invoked (the registry is unchanged), and a single name=value line
rendered by `Format` is emitted exactly when the echo flag is on. -/
theorem parseStep_query_sep (echo : Bool) (st : ParseState) (skip : Bool)
    (w rest : List Char) (opt : OptVal)
    (hw : w ≠ []) (hwn : w.all isNameChar = true)
    (hlk : st.opts.lookup (String.mk (w.map tolowerC)) = some opt)
    (hrest : rest = [] ∨ ∃ c t, rest = c :: t ∧ isSpaceC c = true) :
    parseStep echo st skip (w ++ (' ' :: ('?' :: rest))) =
      .cont (if echo then
          { st with output := st.output ++
              [String.mk (w.map tolowerC) ++ "=" ++ opt.format] }
        else st)
        false rest := by
  obtain ⟨cw, w', rfl⟩ : ∃ c w', w = c :: w' := by
    cases w with
    | nil => exact absurd rfl hw
    | cons c w' => exact ⟨c, w', rfl⟩
  have hcw : isNameChar cw = true := by
    simp only [List.all_cons, Bool.and_eq_true] at hwn
    exact hwn.1
  have hspcw : isSpaceC cw = false := by
    unfold isNameChar at hcw
    simp only [Bool.and_eq_true, Bool.not_eq_eq_eq_not, Bool.not_true] at hcw
    exact hcw.1
  have e0 : skipSpacesC ((cw :: w') ++ (' ' :: ('?' :: rest))) =
      (cw :: w') ++ (' ' :: ('?' :: rest)) := by
    simp [skipSpacesC, List.dropWhile_cons, hspcw]
  have e1 : ((cw :: w') ++ (' ' :: ('?' :: rest))).takeWhile isNameChar =
      cw :: w' := by
    rw [takeWhile_append_all hwn]
    simp [List.takeWhile_cons, (by decide : isNameChar ' ' = false)]
  have e2 : ((cw :: w') ++ (' ' :: ('?' :: rest))).dropWhile isNameChar =
      ' ' :: ('?' :: rest) := by
    rw [dropWhile_append_all hwn]
    simp [List.dropWhile_cons, (by decide : isNameChar ' ' = false)]
  have e3 : skipSpacesC (' ' :: ('?' :: rest)) = '?' :: rest := by
    simp [skipSpacesC, List.dropWhile_cons, (by decide : isSpaceC ' ' = true),
      (by decide : isSpaceC '?' = false)]
  rcases hrest with rfl | ⟨c, t, rfl, hc⟩
  · simp only [parseStep, e0, e1, e2, e3, hlk]
    simp only [List.cons_append, List.isEmpty_cons, Bool.false_eq_true,
      if_false, List.head?_cons, List.head?_nil, List.tail_cons,
      (by decide : ¬ (some '?' = some ('=' : Char))), eq_self_iff_true,
      if_true]
  · simp only [parseStep, e0, e1, e2, e3, hlk]
    simp only [List.cons_append, List.isEmpty_cons, Bool.false_eq_true,
      if_false, List.head?_cons, List.tail_cons, hc,
      (by decide : ¬ (some '?' = some ('=' : Char))), eq_self_iff_true,
      if_true]

/-- A recognized keyword option given an explicit equals sign and a
value: the does-not-accept-argument diagnostic is reported, exactly the
following non-whitespace token is discarded, and parsing continues. -/
theorem parseStep_keyword_eq_err (echo : Bool) (st : ParseState)
    (skip : Bool) (w tok rest : List Char) (opt : OptVal)
    (hw : w ≠ []) (hwn : w.all isNameChar = true)
    (hlk : st.opts.lookup (String.mk (w.map tolowerC)) = some opt)
    (hkw : opt.is_keyword = true)
    (htok : tok ≠ []) (htokn : tok.all (fun c => !isSpaceC c) = true)
    (htq : tok.head? ≠ some '?')
    (hrest : rest = [] ∨ ∃ c t, rest = c :: t ∧ isSpaceC c = true) :
    parseStep echo st skip (w ++ ('=' :: (tok ++ rest))) =
      .cont (reportError st
          ("Option \"" ++ String.mk (w.map tolowerC) ++
            "\" doesn\x27t accept argument"))
        false rest := by
  obtain ⟨cw, w', rfl⟩ : ∃ c w', w = c :: w' := by
    cases w with
    | nil => exact absurd rfl hw
    | cons c w' => exact ⟨c, w', rfl⟩
  obtain ⟨ct, tok', rfl⟩ : ∃ c t', tok = c :: t' := by
    cases tok with
    | nil => exact absurd rfl htok
    | cons c t' => exact ⟨c, t', rfl⟩
  have hcw : isNameChar cw = true := by
    simp only [List.all_cons, Bool.and_eq_true] at hwn
    exact hwn.1
  have hspcw : isSpaceC cw = false := by
    unfold isNameChar at hcw
    simp only [Bool.and_eq_true, Bool.not_eq_eq_eq_not, Bool.not_true] at hcw
    exact hcw.1
  have hspct : isSpaceC ct = false := by
    simp only [List.all_cons, Bool.and_eq_true] at htokn
    simpa using htokn.1
  have hctq : ¬ (some ct = some ('?' : Char)) := by
    simpa using htq
  have e0 : skipSpacesC ((cw :: w') ++ ('=' :: ((ct :: tok') ++ rest))) =
      (cw :: w') ++ ('=' :: ((ct :: tok') ++ rest)) := by
    simp [skipSpacesC, List.dropWhile_cons, hspcw]
  have e1 : ((cw :: w') ++ ('=' :: ((ct :: tok') ++ rest))).takeWhile
      isNameChar = cw :: w' := by
    rw [takeWhile_append_all hwn]
    simp [List.takeWhile_cons, (by decide : isNameChar '=' = false)]
  have e2 : ((cw :: w') ++ ('=' :: ((ct :: tok') ++ rest))).dropWhile
      isNameChar = '=' :: ((ct :: tok') ++ rest) := by
    rw [dropWhile_append_all hwn]
    simp [List.dropWhile_cons, (by decide : isNameChar '=' = false)]
  have e3 : skipSpacesC ('=' :: ((ct :: tok') ++ rest)) =
      '=' :: ((ct :: tok') ++ rest) := by
    simp [skipSpacesC, List.dropWhile_cons, (by decide : isSpaceC '=' = false)]
  have e4 : skipSpacesC ((ct :: tok') ++ rest) = (ct :: tok') ++ rest := by
    simp [skipSpacesC, List.dropWhile_cons, hspct]
  have e5 : skipNonSpacesC ((ct :: tok') ++ rest) = rest := by
    unfold skipNonSpacesC
    rw [dropWhile_append_all htokn]
    rcases hrest with rfl | ⟨c, t, rfl, hc⟩
    · simp
    · simp [List.dropWhile_cons, hc]
  simp only [parseStep, e0, e1, e2, e3, e4, e5, hlk, hctq, hkw,
    List.isEmpty_cons, List.head?_cons, List.tail_cons, Bool.false_eq_true,
    if_false, eq_self_iff_true, if_true, Bool.true_and]
  simp only [List.cons_append, List.isEmpty_cons, List.head?_cons, hctq,
    Bool.false_eq_true, if_false]

/-! ### Theorems about Solution.status (claim C1) -/

/-- C1: for every solve code `c` stored in a `Solution`, `status()`
returns `UNKNOWN` when `c < 0` or `c ≥ 600`, and otherwise the status
whose ordinal is `c / 100 + 1`; in particular the codes 0, 150, 250,
350, 450, 550, 600 and -1 map to SOLVED, SOLVED_MAYBE, INFEASIBLE,
UNBOUNDED, LIMIT, FAILURE, UNKNOWN and UNKNOWN respectively. -/
theorem solution_status_bands :
    (∀ c : Int, c < 0 ∨ 600 ≤ c → Solution.status ⟨c⟩ = .UNKNOWN) ∧
    (∀ c : Int, 0 ≤ c → c < 600 →
      (Solution.status ⟨c⟩).ordinal = c.toNat / 100 + 1) ∧
    Solution.status ⟨0⟩ = .SOLVED ∧
    Solution.status ⟨150⟩ = .SOLVED_MAYBE ∧
    Solution.status ⟨250⟩ = .INFEASIBLE ∧
    Solution.status ⟨350⟩ = .UNBOUNDED ∧
    Solution.status ⟨450⟩ = .LIMIT ∧
    Solution.status ⟨550⟩ = .FAILURE ∧
    Solution.status ⟨600⟩ = .UNKNOWN ∧
    Solution.status ⟨-1⟩ = .UNKNOWN := by
  refine ⟨fun c h => by simp only [Solution.status]; rw [if_pos h],
    fun c h0 h6 => ?_, by decide⟩
  simp only [Solution.status]
  rw [if_neg (by omega)]
  obtain ⟨d, hd, hlt⟩ : ∃ d, c.toNat / 100 = d ∧ d < 6 :=
    ⟨c.toNat / 100, rfl, by omega⟩
  rw [hd]
  interval_cases d <;> rfl

/-- Closed witness for `solution_status_bands`: instantiates the two
quantified parts at concrete solve codes. -/
theorem solution_status_bands_witness :
    Solution.status ⟨-7⟩ = .UNKNOWN ∧
    (Solution.status ⟨123⟩).ordinal = 2 :=
  ⟨solution_status_bands.1 (-7) (Or.inl (by decide)),
   (solution_status_bands.2.1 123 (by decide) (by decide)).trans (by decide)⟩

/-! ### Theorems about capacity growth (claim C2) -/

/-- C2: `Problem::IncreaseCapacity(size, capacity)` raises the error
exactly when `capacity = 0` and `size ≠ 0`; in every other case it
terminates normally with new capacity `2 * max capacity size` when that
maximum is nonzero and `8` when both are zero, and `Problem::Grow`
leaves all element values at indices below `size` unchanged. -/
theorem increaseCapacity_grow_spec :
    (∀ size capacity : Nat,
      IncreaseCapacity size capacity = .error "Problem can\x27t be modified" ↔
        capacity = 0 ∧ size ≠ 0) ∧
    (∀ size capacity : Nat, ¬(capacity = 0 ∧ size ≠ 0) →
      max capacity size ≠ 0 →
      IncreaseCapacity size capacity = .ok (2 * max capacity size)) ∧
    (∀ size capacity : Nat, capacity = 0 → size = 0 →
      IncreaseCapacity size capacity = .ok 8) ∧
    (∀ (a : Nat → ℚ) (size i : Nat), i < size → Grow a size i = a i) := by
  refine ⟨fun s c => ?_, fun s c h hm => ?_, fun s c hc hs => ?_,
    fun a s i h => ?_⟩
  · by_cases h : c = 0 ∧ s ≠ 0 <;> simp [IncreaseCapacity, h]
  · simp [IncreaseCapacity, h, hm]
  · subst hc; subst hs; rfl
  · simp [Grow, h]

/-- Closed witness for `increaseCapacity_grow_spec`: the frozen case
errors, a growth case doubles, the empty case initializes to 8, and a
grown array preserves an element below `size`. -/
theorem increaseCapacity_grow_spec_witness :
    IncreaseCapacity 5 0 = .error "Problem can\x27t be modified" ∧
    IncreaseCapacity 3 4 = .ok 8 ∧
    IncreaseCapacity 0 0 = .ok 8 ∧
    Grow (fun i => (i : ℚ) + 1) 3 2 = (2 : ℚ) + 1 :=
  ⟨(increaseCapacity_grow_spec.1 5 0).mpr ⟨rfl, by decide⟩,
   increaseCapacity_grow_spec.2.1 3 4 (by simp) (by decide),
   increaseCapacity_grow_spec.2.2.1 0 0 rfl rfl,
   increaseCapacity_grow_spec.2.2.2 (fun i => (i : ℚ) + 1) 3 2 (by decide)⟩

/-! ### Theorems about ProblemChanges.AddVar (claim C4) -/

/-- The indices returned by a sequence of `ProblemChanges.AddVar` calls
form the arithmetic range starting at `baseNumVars + var_lb.length`. -/
theorem addVarSeq_indices (ps : List (ℚ × ℚ)) :
    ∀ pc : ProblemChanges,
      (pc.addVarSeq ps).1 =
        List.range' (pc.baseNumVars + pc.var_lb.length) ps.length := by
  induction ps with
  | nil => intro pc; rfl
  | cons p rest ih =>
    intro pc
    obtain ⟨lb, ub⟩ := p
    simp [ProblemChanges.addVarSeq, ProblemChanges.AddVar, ih,
      List.range'_succ]
    right
    omega

/-- C4: for a `ProblemChanges` constructed against a base problem with
`n` variables, the k-th `AddVar` call (k starting at 1) returns index
`n + k - 1`; in particular the first call returns exactly `n`. -/
theorem problemChanges_addVar_offset :
    (∀ (n : Nat) (lb ub : ℚ), ((ProblemChanges.make n).AddVar lb ub).1 = n) ∧
    (∀ (n k : Nat) (ps : List (ℚ × ℚ)), 1 ≤ k → k ≤ ps.length →
      ((ProblemChanges.make n).addVarSeq ps).1[k - 1]? = some (n + k - 1)) := by
  refine ⟨fun n lb ub => by simp [ProblemChanges.AddVar, ProblemChanges.make],
    fun n k ps h1 hk => ?_⟩
  rw [addVarSeq_indices]
  simp only [ProblemChanges.make, List.length_nil, Nat.add_zero]
  rw [List.getElem?_range' n 1 (show k - 1 < ps.length by omega)]
  congr 1
  omega

/-- Closed witness for `problemChanges_addVar_offset`: against a base
problem with 4 variables, the second of two `AddVar` calls returns
index 5 and a single call returns 4. -/
theorem problemChanges_addVar_offset_witness :
    ((ProblemChanges.make 4).addVarSeq [(1, 2), (3, 4)]).1[2 - 1]? =
      some (4 + 2 - 1) ∧
    ((ProblemChanges.make 4).AddVar 1 2).1 = 4 :=
  ⟨problemChanges_addVar_offset.2 4 2 [(1, 2), (3, 4)] (by decide) (by decide),
   problemChanges_addVar_offset.1 4 1 2⟩

/-! ### Theorems about unknown-option recovery (claim C3) -/

/-- C3: parsing the token stream "foo=1 bar baz=2" with `foo` and `baz`
registered integer options and `bar` unregistered sets foo to 1 and baz
to 2, reports exactly one unknown-option diagnostic (for bar), and
consumes no following token as a value for bar; in general an unknown
name followed by an equals sign discards exactly the next
non-whitespace token without touching the skip flag, a bare unknown
name enters skip mode (reporting only when skip mode was off, which
also shows skip mode suppresses further unknown-option diagnostics),
and a recognized name always continues with the skip flag cleared. -/
theorem parseOptionString_unknown_recovery :
    (ParseOptionString true ⟨[("foo", .intv 0), ("baz", .intv 0)], [], []⟩
        "foo=1 bar baz=2" =
      ⟨[("foo", .intv 1), ("baz", .intv 2)],
        ["Unknown option \"bar\""], ["foo=1", "baz=2"]⟩) ∧
    (∀ (echo : Bool) (st : ParseState) (skip : Bool) (w tok rest : List Char),
      w ≠ [] → w.all isNameChar = true →
      st.opts.lookup (String.mk (w.map tolowerC)) = none →
      tok ≠ [] → tok.all (fun c => !isSpaceC c) = true →
      (rest = [] ∨ ∃ c t, rest = c :: t ∧ isSpaceC c = true) →
      parseStep echo st skip (w ++ ('=' :: (tok ++ rest))) =
        .cont (if skip then st
          else reportError st
            ("Unknown option \"" ++ String.mk (w.map tolowerC) ++ "\""))
          skip rest) ∧
    (∀ (echo : Bool) (st : ParseState) (skip : Bool) (w rest : List Char),
      w ≠ [] → w.all isNameChar = true →
      st.opts.lookup (String.mk (w.map tolowerC)) = none →
      (rest = [] ∨ ∃ c t, rest = c :: t ∧ isSpaceC c = true) →
      (skipSpacesC rest).head? ≠ some '=' →
      parseStep echo st skip (w ++ rest) =
        .cont (if skip then st
          else reportError st
            ("Unknown option \"" ++ String.mk (w.map tolowerC) ++ "\""))
          true (skipSpacesC rest)) ∧
    (∀ (echo : Bool) (st : ParseState) (skip : Bool) (s0 : List Char),
      (skipSpacesC s0).isEmpty = false →
      (st.opts.lookup (String.mk
        (((skipSpacesC s0).takeWhile isNameChar).map tolowerC))).isSome =
        true →
      ∃ st' rest, parseStep echo st skip s0 = .cont st' false rest) :=
  ⟨by decide, parseStep_unknown_eq, parseStep_unknown_bare,
    parseStep_known_cont⟩

/-- Closed witness for `parseOptionString_unknown_recovery`: the three
quantified parts instantiated at concrete inputs. -/
theorem parseOptionString_unknown_recovery_witness :
    (parseStep true ⟨[("baz", OptVal.intv 0)], [], []⟩ false
        (['q', 'u', 'x'] ++ ('=' :: (['7'] ++ []))) =
      .cont (if false then (⟨[("baz", OptVal.intv 0)], [], []⟩ : ParseState)
        else reportError ⟨[("baz", OptVal.intv 0)], [], []⟩
          ("Unknown option \"" ++ String.mk (['q', 'u', 'x'].map tolowerC) ++
            "\""))
        false []) ∧
    (parseStep true ⟨[("baz", OptVal.intv 0)], [], []⟩ false
        (['q', 'u', 'x'] ++ [' ', 'z']) =
      .cont (if false then (⟨[("baz", OptVal.intv 0)], [], []⟩ : ParseState)
        else reportError ⟨[("baz", OptVal.intv 0)], [], []⟩
          ("Unknown option \"" ++ String.mk (['q', 'u', 'x'].map tolowerC) ++
            "\""))
        true (skipSpacesC [' ', 'z'])) ∧
    (∃ st' rest, parseStep true ⟨[("baz", OptVal.intv 0)], [], []⟩ true
        ['b', 'a', 'z'] = .cont st' false rest) :=
  ⟨parseOptionString_unknown_recovery.2.1 true _ false _ _ _ (by decide)
      (by decide) (by decide) (by decide) (by decide) (Or.inl rfl),
   parseOptionString_unknown_recovery.2.2.1 true _ false _ _ (by decide)
      (by decide) (by decide)
      (Or.inr ⟨' ', ['z'], rfl, by decide⟩) (by decide),
   parseOptionString_unknown_recovery.2.2.2 true _ true _ (by decide)
      (by decide)⟩

/-! ### Theorems about keyword options given arguments (claim C7) -/

/-- C7: a registered keyword option followed by an explicit equals sign
reports the does-not-accept-argument diagnostic, discards exactly the
following non-whitespace token, and continues parsing; the diagnostic
lands in the accumulated has-errors flag (so the overall parse reports
failure) without aborting the pass, as the concrete stream
"version=1 wantsol=3" shows: wantsol is still parsed to 3. -/
theorem parseOptionString_keyword_arg_error :
    (ParseOptionString true
        ⟨[("version", .kw false), ("wantsol", .intv 0)], [], []⟩
        "version=1 wantsol=3" =
      ⟨[("version", .kw false), ("wantsol", .intv 3)],
        ["Option \"version\" doesn\x27t accept argument"], ["wantsol=3"]⟩) ∧
    ((ParseOptions true [("version", .kw false), ("wantsol", .intv 0)]
        none ["version=1 wantsol=3"]).2 = false) ∧
    (∀ (echo : Bool) (st : ParseState) (skip : Bool)
        (w tok rest : List Char) (opt : OptVal),
      w ≠ [] → w.all isNameChar = true →
      st.opts.lookup (String.mk (w.map tolowerC)) = some opt →
      opt.is_keyword = true →
      tok ≠ [] → tok.all (fun c => !isSpaceC c) = true →
      tok.head? ≠ some '?' →
      (rest = [] ∨ ∃ c t, rest = c :: t ∧ isSpaceC c = true) →
      parseStep echo st skip (w ++ ('=' :: (tok ++ rest))) =
        .cont (reportError st
            ("Option \"" ++ String.mk (w.map tolowerC) ++
              "\" doesn\x27t accept argument"))
          false rest) :=
  ⟨by decide, by decide, parseStep_keyword_eq_err⟩

/-- Closed witness for `parseOptionString_keyword_arg_error`: the
quantified part instantiated at a concrete keyword option. -/
theorem parseOptionString_keyword_arg_error_witness :
    parseStep true ⟨[("version", OptVal.kw false)], [], []⟩ false
        (['v', 'e', 'r', 's', 'i', 'o', 'n'] ++ ('=' :: (['1'] ++ []))) =
      .cont (reportError ⟨[("version", OptVal.kw false)], [], []⟩
          ("Option \"" ++
            String.mk (['v', 'e', 'r', 's', 'i', 'o', 'n'].map tolowerC) ++
            "\" doesn\x27t accept argument"))
        false [] :=
  parseOptionString_keyword_arg_error.2.2 true _ false _ _ _
    (OptVal.kw false) (by decide) (by decide) (by decide) (by decide)
    (by decide) (by decide) (by decide) (Or.inl rfl)

/-! ### Theorems about value queries (claim C8) -/

/-- C8 counterexample: the single token "wantsol?" does not render the
current value; the option-name loop stops only at whitespace or an
equals sign, so the question mark is taken into the name, the lookup of
"wantsol?" fails, and the only effect is an unknown-option diagnostic
with no output line. -/
theorem wantsol_query_token_counterexample :
    ParseOptionString true ⟨[("wantsol", .intv 3)], [], []⟩ "wantsol?" =
      ⟨[("wantsol", .intv 3)], ["Unknown option \"wantsol?\""], []⟩ := by
  decide

/-- C8 (amended): a question mark at the value position, separated from
the registered option name by whitespace or an equals sign and followed
by whitespace or end of input, renders exactly one name=value line via
the option Format operation, consumes only the question mark, does not
invoke Parse, and is suppressed by the echo-suppression flag; the
tokens "wantsol ?" and "wantsol=?" after wantsol was set to 3 render
the line wantsol=3. -/
theorem parseOptionString_query_render :
    (ParseOptionString true ⟨[("wantsol", .intv 3)], [], []⟩ "wantsol ?" =
      ⟨[("wantsol", .intv 3)], [], ["wantsol=3"]⟩) ∧
    (ParseOptionString true ⟨[("wantsol", .intv 3)], [], []⟩ "wantsol=?" =
      ⟨[("wantsol", .intv 3)], [], ["wantsol=3"]⟩) ∧
    (ParseOptionString false ⟨[("wantsol", .intv 3)], [], []⟩ "wantsol ?" =
      ⟨[("wantsol", .intv 3)], [], []⟩) ∧
    (∀ (echo : Bool) (st : ParseState) (skip : Bool)
        (w rest : List Char) (opt : OptVal),
      w ≠ [] → w.all isNameChar = true →
      st.opts.lookup (String.mk (w.map tolowerC)) = some opt →
      (rest = [] ∨ ∃ c t, rest = c :: t ∧ isSpaceC c = true) →
      parseStep echo st skip (w ++ (' ' :: ('?' :: rest))) =
        .cont (if echo then
            { st with output := st.output ++
                [String.mk (w.map tolowerC) ++ "=" ++ opt.format] }
          else st)
          false rest) :=
  ⟨by decide, by decide, by decide, parseStep_query_sep⟩

/-- Closed witness for `parseOptionString_query_render`: the quantified
part instantiated at a concrete int option. -/
theorem parseOptionString_query_render_witness :
    parseStep true ⟨[("wantsol", OptVal.intv 3)], [], []⟩ false
        (['w', 'a', 'n', 't', 's', 'o', 'l'] ++ (' ' :: ('?' :: []))) =
      .cont (if true then
          { opts := [("wantsol", OptVal.intv 3)], errors := [],
            output := [] ++
              [String.mk (['w', 'a', 'n', 't', 's', 'o', 'l'].map tolowerC)
                ++ "=" ++ (OptVal.intv 3).format] }
        else (⟨[("wantsol", OptVal.intv 3)], [], []⟩ : ParseState))
        false [] :=
  parseOptionString_query_render.2.2.2 true _ false _ _ (OptVal.intv 3)
    (by decide) (by decide) (by decide) (Or.inl rfl)

/-! ### Theorems about the signal handler (claim C5) -/

/-- C5: the signal handler is a two-state machine over the boolean stop
flag with no third state: in the ARMED state (flag unset) a SIGINT
writes the pre-rendered message, sets the stop flag, calls the
registered Interruptible (when one is installed), and re-installs the
handler; in the STOPPING state (flag set) it writes the message again
and terminates the process via the reentrant-safe exit call. -/
theorem signal_handler_two_state :
    (∀ hasInt : Bool, HandleSigInt false hasInt =
      { wroteMessage := true, exited := false, stopAfter := true,
        interruptCalled := hasInt, handlerReinstalled := true }) ∧
    (∀ hasInt : Bool, HandleSigInt true hasInt =
      { wroteMessage := true, exited := true, stopAfter := true,
        interruptCalled := false, handlerReinstalled := false }) := by
  decide

/-! ### Theorems about Run return codes (claim C6) -/

/-- C6: `BasicSolver::Run` returns 1 without invoking Solve when no
problem stub is resolved or when option parsing accumulated errors, and
returns 0 after a completed solve attempt; the return code and the
solve-invocation fact never depend on the solve outcome itself. -/
theorem run_return_codes :
    (∀ (echo : Bool) (opts : List (String × OptVal)) (env : Option String)
        (argv : List String) (stat : Status),
      Run false echo opts env argv stat = ⟨1, false, none⟩) ∧
    (∀ (echo : Bool) (opts : List (String × OptVal)) (env : Option String)
        (argv : List String) (stat : Status),
      (ParseOptions echo opts env argv).2 = false →
      Run true echo opts env argv stat = ⟨1, false, none⟩) ∧
    (∀ (echo : Bool) (opts : List (String × OptVal)) (env : Option String)
        (argv : List String) (stat : Status),
      (ParseOptions echo opts env argv).2 = true →
      Run true echo opts env argv stat = ⟨0, true, some stat⟩) ∧
    (∀ (sf echo : Bool) (opts : List (String × OptVal))
        (env : Option String) (argv : List String) (s1 s2 : Status),
      (Run sf echo opts env argv s1).returnCode =
        (Run sf echo opts env argv s2).returnCode ∧
      (Run sf echo opts env argv s1).solveInvoked =
        (Run sf echo opts env argv s2).solveInvoked) := by
  refine ⟨fun echo opts env argv stat => rfl,
    fun echo opts env argv stat h => ?_,
    fun echo opts env argv stat h => ?_,
    fun sf echo opts env argv s1 s2 => ?_⟩
  · simp [Run, h]
  · simp [Run, h]
  · cases sf with
    | false => exact ⟨rfl, rfl⟩
    | true =>
      by_cases h : (ParseOptions echo opts env argv).2 = true
      · simp [Run, h]
      · simp [Run, h]

/-- Closed witness for `run_return_codes`: a failing parse (unknown
option) gives return code 1 with no solve, a clean parse gives return
code 0 with a solve. -/
theorem run_return_codes_witness :
    Run true true [("wantsol", OptVal.intv 0)] none ["nosuch"]
        Status.SOLVED = ⟨1, false, none⟩ ∧
    Run true true [("wantsol", OptVal.intv 0)] none ["wantsol=3"]
        Status.FAILURE = ⟨0, true, some Status.FAILURE⟩ :=
  ⟨run_return_codes.2.1 true _ none _ Status.SOLVED (by decide),
   run_return_codes.2.2.1 true _ none _ Status.FAILURE (by decide)⟩

/-- A decimal digit character is not a whitespace character. -/
theorem isDigitC_not_space {c : Char} (h : isDigitC c = true) :
    isSpaceC c = false := by
  simp only [isDigitC, Bool.and_eq_true, Nat.ble_eq] at h
  simp only [isSpaceC, Bool.or_eq_false_iff, Bool.and_eq_false_iff]
  refine ⟨?_, Or.inr ?_⟩
  · rw [Bool.eq_false_iff]
    intro hb
    rw [beq_iff_eq] at hb
    omega
  · rw [Bool.eq_false_iff]
    intro hb
    rw [Nat.ble_eq] at hb
    omega

/-- The value and cursor `strtol` produces on a string whose leading
characters are whitespace, then a nonempty digit run, then a non-digit
remainder: the digit value, with the cursor just past the digits. -/
theorem strtol10_digits (sp ds t : List Char)
    (hsp : sp.all isSpaceC = true)
    (hds : ds ≠ []) (hdsd : ds.all isDigitC = true)
    (ht : t = [] ∨ ∃ c t', t = c :: t' ∧ isDigitC c = false) :
    strtol10 (sp ++ (ds ++ t)) = ((digitsVal ds : Int), t) := by
  obtain ⟨d, ds', rfl⟩ : ∃ c w', ds = c :: w' := by
    cases ds with
    | nil => exact absurd rfl hds
    | cons c w' => exact ⟨c, w', rfl⟩
  have hdd : isDigitC d = true ∧ ds'.all isDigitC = true := by
    simpa using hdsd
  have hspd : isSpaceC d = false := isDigitC_not_space hdd.1
  have hnd : ¬ (some d = some ('-' : Char)) := by
    intro hs
    rw [Option.some.injEq] at hs
    exact absurd (hs ▸ hdd.1) (by decide)
  have hpd : ¬ (some d = some ('+' : Char)) := by
    intro hs
    rw [Option.some.injEq] at hs
    exact absurd (hs ▸ hdd.1) (by decide)
  have e0 : skipSpacesC (sp ++ (d :: (ds' ++ t))) = d :: (ds' ++ t) := by
    unfold skipSpacesC
    rw [dropWhile_append_all hsp]
    simp [List.dropWhile_cons, hspd]
  have e1 : List.takeWhile isDigitC (d :: (ds' ++ t)) = d :: ds' := by
    show ((d :: ds') ++ t).takeWhile isDigitC = d :: ds'
    rw [takeWhile_append_all hdsd]
    rcases ht with rfl | ⟨c, t', rfl, hc⟩
    · simp
    · simp [List.takeWhile_cons, hc]
  have e2 : List.dropWhile isDigitC (d :: (ds' ++ t)) = t := by
    show ((d :: ds') ++ t).dropWhile isDigitC = t
    rw [dropWhile_append_all hdsd]
    rcases ht with rfl | ⟨c, t', rfl, hc⟩
    · rfl
    · simp [List.dropWhile_cons, hc]
  simp only [strtol10, List.cons_append, e0, List.head?_cons, hnd, hpd,
    if_false, e1, e2, List.isEmpty_cons, Bool.false_eq_true]

/-- The negative-sign variant of `strtol10_digits`. -/
theorem strtol10_digits_neg (sp ds t : List Char)
    (hsp : sp.all isSpaceC = true)
    (hds : ds ≠ []) (hdsd : ds.all isDigitC = true)
    (ht : t = [] ∨ ∃ c t', t = c :: t' ∧ isDigitC c = false) :
    strtol10 (sp ++ ('-' :: (ds ++ t))) = (-(digitsVal ds : Int), t) := by
  obtain ⟨d, ds', rfl⟩ : ∃ c w', ds = c :: w' := by
    cases ds with
    | nil => exact absurd rfl hds
    | cons c w' => exact ⟨c, w', rfl⟩
  have hdd : isDigitC d = true ∧ ds'.all isDigitC = true := by
    simpa using hdsd
  have e0 : skipSpacesC (sp ++ ('-' :: (d :: (ds' ++ t)))) =
      '-' :: (d :: (ds' ++ t)) := by
    unfold skipSpacesC
    rw [dropWhile_append_all hsp]
    simp [List.dropWhile_cons, (by decide : isSpaceC '-' = false)]
  have e1 : List.takeWhile isDigitC (d :: (ds' ++ t)) = d :: ds' := by
    show ((d :: ds') ++ t).takeWhile isDigitC = d :: ds'
    rw [takeWhile_append_all hdsd]
    rcases ht with rfl | ⟨c, t', rfl, hc⟩
    · simp
    · simp [List.takeWhile_cons, hc]
  have e2 : List.dropWhile isDigitC (d :: (ds' ++ t)) = t := by
    show ((d :: ds') ++ t).dropWhile isDigitC = t
    rw [dropWhile_append_all hdsd]
    rcases ht with rfl | ⟨c, t', rfl, hc⟩
    · rfl
    · simp [List.dropWhile_cons, hc]
  simp only [strtol10, List.cons_append, e0, List.head?_cons,
    List.tail_cons, eq_self_iff_true, if_true, e1, e2, List.isEmpty_cons,
    Bool.false_eq_true, if_false]

/-- When no digits follow the optional whitespace and sign, `strtol`
performs no conversion: it returns 0 and the cursor stays at the very
start of the string. -/
theorem strtol10_none (s : List Char) (h : noLeadingInt s = true) :
    strtol10 s = (0, s) := by
  simp only [noLeadingInt] at h
  by_cases h1 : (skipSpacesC s).head? = some '-'
  · simp only [strtol10, h1, if_true, eq_self_iff_true]
    have ht : ((skipSpacesC s).tail.takeWhile isDigitC).isEmpty = true := by
      rw [if_pos (Or.inl h1)] at h
      exact h
    simp [ht]
  · by_cases h2 : (skipSpacesC s).head? = some '+'
    · simp only [strtol10, h1, h2, if_true, if_false, eq_self_iff_true,
        Bool.false_eq_true]
      have ht : ((skipSpacesC s).tail.takeWhile isDigitC).isEmpty = true := by
        rw [if_pos (Or.inr h2)] at h
        exact h
      simp [ht]
    · simp only [strtol10, h1, h2, if_false, Bool.false_eq_true]
      have ht : ((skipSpacesC s).takeWhile isDigitC).isEmpty = true := by
        rw [if_neg (by tauto)] at h
        exact h
      simp [ht]

/-! ### Theorems about OptionHelper int parsing (claim C10) -/

/-- C10: `OptionHelper<int>::Parse` terminates normally on every input
and never raises an option error: it returns the value `strtol` reads
from the leading characters with the cursor advanced past them, and
when the string has no leading integer it returns 0 with the cursor at
the first unconsumed character (the start); consequently a registered
integer option given a non-numeric value is silently set to 0 with no
diagnostic from the value parse, as the step on "foo=abc" shows. -/
theorem optionHelperInt_parse_total :
    (∀ s : List Char, noLeadingInt s = true →
      OptionHelperIntParse s = (0, s)) ∧
    (∀ sp ds t : List Char, sp.all isSpaceC = true → ds ≠ [] →
      ds.all isDigitC = true →
      (t = [] ∨ ∃ c t', t = c :: t' ∧ isDigitC c = false) →
      OptionHelperIntParse (sp ++ (ds ++ t)) = ((digitsVal ds : Int), t)) ∧
    (∀ sp ds t : List Char, sp.all isSpaceC = true → ds ≠ [] →
      ds.all isDigitC = true →
      (t = [] ∨ ∃ c t', t = c :: t' ∧ isDigitC c = false) →
      OptionHelperIntParse (sp ++ ('-' :: (ds ++ t))) =
        (-(digitsVal ds : Int), t)) ∧
    (parseStep true ⟨[("foo", .intv 5)], [], []⟩ false "foo=abc".data =
      .cont ⟨[("foo", .intv 0)], [], ["foo="]⟩ false "abc".data) :=
  ⟨strtol10_none, strtol10_digits, strtol10_digits_neg, by decide⟩

/-- Closed witness for `optionHelperInt_parse_total`: the three
quantified parts instantiated at concrete strings. -/
theorem optionHelperInt_parse_total_witness :
    OptionHelperIntParse ['x', 'y'] = (0, ['x', 'y']) ∧
    OptionHelperIntParse ([' '] ++ (['4', '2'] ++ ['z'])) =
      ((digitsVal ['4', '2'] : Int), ['z']) ∧
    OptionHelperIntParse ([] ++ ('-' :: (['7'] ++ []))) =
      (-(digitsVal ['7'] : Int), []) :=
  ⟨optionHelperInt_parse_total.1 ['x', 'y'] (by decide),
   optionHelperInt_parse_total.2.1 [' '] ['4', '2'] ['z'] (by decide)
     (by decide) (by decide) (Or.inr ⟨'z', [], rfl, by decide⟩),
   optionHelperInt_parse_total.2.2.1 [] ['7'] [] (by decide) (by decide)
     (by decide) (Or.inl rfl)⟩

/-! ### Theorems about Problem.AddVar growth (claim C9) -/

/-- One `AddVar` from a state whose size does not exceed its capacity
succeeds, increments the count, preserves that invariant, preserves all
stored bounds, and stores the new bounds at the old count. -/
theorem ProblemModel.addVar_ok (p : ProblemModel) (lb ub : ℚ)
    (h : p.numVars ≤ p.var_capacity) :
    ∃ q, p.AddVar lb ub = .ok q ∧ q.numVars = p.numVars + 1 ∧
      q.numVars ≤ q.var_capacity ∧
      (∀ i, i < p.numVars → q.LUv i = p.LUv i ∧ q.Uvx i = p.Uvx i) ∧
      q.LUv p.numVars = lb ∧ q.Uvx p.numVars = ub := by
  by_cases hc : p.var_capacity ≤ p.numVars
  · have heq : p.var_capacity = p.numVars := Nat.le_antisymm hc h
    have hinc : IncreaseCapacity p.numVars p.var_capacity =
        .ok (if p.numVars = 0 then 8 else 2 * p.numVars) := by
      rw [heq]
      rcases Nat.eq_zero_or_pos p.numVars with h0 | h0
      · rw [h0]; rfl
      · simp only [IncreaseCapacity, Nat.max_self]
        rw [if_neg (by omega), if_pos (by omega), if_neg (by omega)]
    refine ⟨⟨p.numVars + 1, if p.numVars = 0 then 8 else 2 * p.numVars,
      fun i => if i = p.numVars then lb else Grow p.LUv p.numVars i,
      fun i => if i = p.numVars then ub else Grow p.Uvx p.numVars i⟩,
      ?_, rfl, ?_, ?_, ?_, ?_⟩
    · unfold ProblemModel.AddVar
      rw [if_pos hc, hinc]
    · show p.numVars + 1 ≤ if p.numVars = 0 then 8 else 2 * p.numVars
      rcases Nat.eq_zero_or_pos p.numVars with h0 | h0
      · rw [if_pos h0]; omega
      · rw [if_neg (by omega)]; omega
    · intro i hi
      constructor
      · show (if i = p.numVars then lb else Grow p.LUv p.numVars i) = p.LUv i
        rw [if_neg (by omega)]
        simp [Grow, hi]
      · show (if i = p.numVars then ub else Grow p.Uvx p.numVars i) = p.Uvx i
        rw [if_neg (by omega)]
        simp [Grow, hi]
    · show (if p.numVars = p.numVars then lb
        else Grow p.LUv p.numVars p.numVars) = lb
      rw [if_pos rfl]
    · show (if p.numVars = p.numVars then ub
        else Grow p.Uvx p.numVars p.numVars) = ub
      rw [if_pos rfl]
  · have hlt : p.numVars < p.var_capacity := Nat.lt_of_not_le hc
    refine ⟨⟨p.numVars + 1, p.var_capacity,
      fun i => if i = p.numVars then lb else p.LUv i,
      fun i => if i = p.numVars then ub else p.Uvx i⟩,
      ?_, rfl, ?_, ?_, ?_, ?_⟩
    · unfold ProblemModel.AddVar
      rw [if_neg hc]
    · show p.numVars + 1 ≤ p.var_capacity
      omega
    · intro i hi
      refine ⟨?_, ?_⟩
      · show (if i = p.numVars then lb else p.LUv i) = p.LUv i
        rw [if_neg (by omega)]
      · show (if i = p.numVars then ub else p.Uvx i) = p.Uvx i
        rw [if_neg (by omega)]
    · show (if p.numVars = p.numVars then lb else p.LUv p.numVars) = lb
      rw [if_pos rfl]
    · show (if p.numVars = p.numVars then ub else p.Uvx p.numVars) = ub
      rw [if_pos rfl]


/-- Invariant-carrying correctness of a whole `AddVar` sequence: from a
state respecting size ≤ capacity, every call succeeds, the appended
indices form the unit-step range starting at the old count, previously
stored bounds are untouched, and each call's bounds are readable at its
index afterwards. -/
theorem ProblemModel.addVarSeq_ok :
    ∀ (ps : List (ℚ × ℚ)) (p : ProblemModel),
      p.numVars ≤ p.var_capacity →
      ∃ idxs q, p.addVarSeq ps = .ok (idxs, q) ∧
        idxs = List.range' p.numVars ps.length ∧
        q.numVars = p.numVars + ps.length ∧
        q.numVars ≤ q.var_capacity ∧
        (∀ i, i < p.numVars → q.LUv i = p.LUv i ∧ q.Uvx i = p.Uvx i) ∧
        (∀ j (hj : j < ps.length),
          q.LUv (p.numVars + j) = (ps.get ⟨j, hj⟩).1 ∧
          q.Uvx (p.numVars + j) = (ps.get ⟨j, hj⟩).2) := by
  intro ps
  induction ps with
  | nil =>
    intro p hp
    exact ⟨[], p, rfl, rfl, rfl, hp, fun i _ => ⟨rfl, rfl⟩,
      fun j hj => absurd hj (by simp)⟩
  | cons pr rest ih =>
    intro p hp
    obtain ⟨lb, ub⟩ := pr
    obtain ⟨q1, hq1, hn1, hinv1, hpres1, hlb1, hub1⟩ := p.addVar_ok lb ub hp
    obtain ⟨idxs, q, hseq, hidxs, hn, hinv, hpres, hnew⟩ := ih q1 hinv1
    refine ⟨p.numVars :: idxs, q, ?_, ?_, ?_, hinv, ?_, ?_⟩
    · simp only [ProblemModel.addVarSeq, hq1, hseq]
    · rw [hidxs, hn1]
      simp [List.range'_succ]
    · rw [hn, hn1]
      simp [List.length_cons]
      omega
    · intro i hi
      have h1 := hpres1 i hi
      have h2 := hpres i (by omega)
      exact ⟨h2.1.trans h1.1, h2.2.trans h1.2⟩
    · intro j hj
      cases j with
      | zero =>
        have h2 := hpres p.numVars (by omega)
        simp only [Nat.add_zero, List.get]
        exact ⟨h2.1.trans hlb1, h2.2.trans hub1⟩
      | succ j' =>
        have hj' : j' < rest.length := by
          simpa [Nat.succ_lt_succ_iff] using hj
        have h2 := hnew j' hj'
        rw [hn1] at h2
        constructor
        · have := h2.1
          rw [show p.numVars + (j' + 1) = p.numVars + 1 + j' by omega]
          simpa using this
        · have := h2.2
          rw [show p.numVars + (j' + 1) = p.numVars + 1 + j' by omega]
          simpa using this

/-- C9 (with `AddVar` modelled from the spec, the growth pair embedded
from problem.h): for every sequence of `AddVar` calls starting from an
empty, growth-enabled Problem, the assigned indices are 0,1,2,...
(strictly increasing by 1), and reading the bound arrays at any
assigned index afterwards yields exactly the bounds passed in the call
that produced that index, regardless of how many growth reallocations
occurred in between. -/
theorem problem_addVar_stable :
    ∀ ps : List (ℚ × ℚ),
      ∃ idxs q, ProblemModel.empty.addVarSeq ps = .ok (idxs, q) ∧
        idxs = List.range' 0 ps.length ∧
        q.numVars = ps.length ∧
        (∀ j (hj : j < ps.length),
          q.LUv j = (ps.get ⟨j, hj⟩).1 ∧ q.Uvx j = (ps.get ⟨j, hj⟩).2) := by
  intro ps
  obtain ⟨idxs, q, h1, h2, h3, _, _, h6⟩ :=
    ProblemModel.addVarSeq_ok ps ProblemModel.empty (le_refl 0)
  exact ⟨idxs, q, h1, by simpa [ProblemModel.empty] using h2,
    by simpa [ProblemModel.empty] using h3,
    fun j hj => by simpa [ProblemModel.empty] using h6 j hj⟩

/-- Closed witness for `problem_addVar_stable`: the sequence of two
calls instantiated concretely. -/
theorem problem_addVar_stable_witness :
    ∃ idxs q,
      ProblemModel.empty.addVarSeq [(1, 2), (3, 4)] = .ok (idxs, q) ∧
      idxs = List.range' 0 ([(1, 2), (3, 4)] : List (ℚ × ℚ)).length ∧
      q.numVars = ([(1, 2), (3, 4)] : List (ℚ × ℚ)).length ∧
      (∀ j (hj : j < ([(1, 2), (3, 4)] : List (ℚ × ℚ)).length),
        q.LUv j = (([(1, 2), (3, 4)] : List (ℚ × ℚ)).get ⟨j, hj⟩).1 ∧
        q.Uvx j = (([(1, 2), (3, 4)] : List (ℚ × ℚ)).get ⟨j, hj⟩).2) :=
  problem_addVar_stable [(1, 2), (3, 4)]

end DCBC
